import Mathlib

/-!
Verification model of dhcpcd's ARP handler (`src/arp.c`).

The file gives a shallow embedding of the data model and the operations of
the ARP conflict-detection core, and proves the specification's claims about
them:

* the packet codec (the decoding part of `arp_packet`);
* the per-interface session collection and lifecycle operations
  (`arp_find`, `arp_new`, `arp_free`, `arp_close`);
* the probe and announce state machines (`arp_probe`/`arp_probe1`,
  `arp_announce`/`arp_announce1`) as event traces;
* the conflict dispatcher (the `TAILQ_FOREACH_SAFE` loop of `arp_packet`)
  over an explicit linked-collection model in which a conflicted callback
  may free sessions mid-iteration.

Machine bytes are modelled as `Nat` (each byte of a wire frame is `< 256`
physically; the theorems do not need the bound).  Fallible operations return
`Option`/`Except`.  External collaborators (BPF transport, event loop) are
modelled as emitted events, matching the spec's component boundaries.
-/

set_option autoImplicit false
set_option linter.unusedVariables false

namespace ArpC

/-! ## Protocol constants

Modelled from the spec: the numeric protocol constants live in `arp.h`
(RFC 5227 values), which is not part of the provided sources; the spec fixes
PROBE_MIN=1s, PROBE_MAX=2s, PROBE_NUM=3, ANNOUNCE_WAIT=2s, ANNOUNCE_NUM=2.
`NSEC_PER_SEC` is the usual 10^9 from `common.h`. -/

def PROBE_NUM : Nat := 3
def PROBE_MIN : Nat := 1
def PROBE_MAX : Nat := 2
def ANNOUNCE_NUM : Nat := 2
def ANNOUNCE_WAIT : Nat := 2
def NSEC_PER_SEC : Nat := 1000000000

/-! ## Packet codec: the decoding part of `arp_packet` (arp.c:110-163)

A wire frame is a `List Nat` of bytes.  Every byte access goes through
`readByte`, which fails (`Except.error`) on any index outside the supplied
buffer; proving the decoder never returns `Except.error` is exactly the
claim that decoding never reads past the buffer. -/

/-- Bounds-checked byte access: reading outside the buffer is an error. -/
def readByte (buf : List Nat) (i : Nat) : Except Unit Nat :=
  if h : i < buf.length then .ok (buf.get ⟨i, h⟩) else .error ()

/-- Bounds-checked `memcpy` out of the buffer: `n` bytes starting at `off`. -/
def readBytes (buf : List Nat) (off : Nat) : Nat → Except Unit (List Nat)
  | 0 => .ok []
  | n + 1 => do
    let b ← readByte buf off
    let rest ← readBytes buf (off + 1) n
    .ok (b :: rest)

/-- The 8-byte on-wire ARP header (`struct arphdr`); 16-bit fields are in
network byte order, assembled from their two bytes. -/
structure Arphdr where
  ar_hrd : Nat
  ar_pro : Nat
  ar_hln : Nat
  ar_pln : Nat
  ar_op : Nat
  deriving Repr, DecidableEq

/-- The decoded message (`struct arp_msg`): sender/target hardware and
protocol addresses, kept as the raw byte lists copied out of the frame
(`sha`/`tha` have `ar_hln` bytes, `sip`/`tip` have `ar_pln` bytes). -/
structure ArpMsg where
  sha : List Nat
  sip : List Nat
  tha : List Nat
  tip : List Nat
  ar_op : Nat
  deriving Repr, DecidableEq

/-- The decode/validate part of `arp_packet` (arp.c:119-163), with every
byte access bounds-checked.  Mirrors the source:
`if (len < sizeof(ar)) return;` then `memcpy(&ar, data, sizeof(ar));`,
then `hw_s = data + sizeof(ar); hw_t = hw_s + ar_hln + ar_pln;`
`if ((hw_t + ar_hln + ar_pln) - data > len) return;`, then the four
field copies.  `.ok none` is a silent reject, `.ok (some m)` a decoded
message, `.error` an out-of-bounds read (proved unreachable below). -/
def arp_decodeE (buf : List Nat) : Except Unit (Option ArpMsg) :=
  if buf.length < 8 then .ok none
  else do
    let b0 ← readByte buf 0
    let b1 ← readByte buf 1
    let b2 ← readByte buf 2
    let b3 ← readByte buf 3
    let b4 ← readByte buf 4
    let b5 ← readByte buf 5
    let b6 ← readByte buf 6
    let b7 ← readByte buf 7
    let ar : Arphdr := ⟨b0 * 256 + b1, b2 * 256 + b3, b4, b5, b6 * 256 + b7⟩
    let hw_s := 8
    let hw_t := hw_s + ar.ar_hln + ar.ar_pln
    if hw_t + ar.ar_hln + ar.ar_pln > buf.length then .ok none
    else do
      let sha ← readBytes buf hw_s ar.ar_hln
      let sip ← readBytes buf (hw_s + ar.ar_hln) ar.ar_pln
      let tha ← readBytes buf hw_t ar.ar_hln
      let tip ← readBytes buf (hw_t + ar.ar_hln) ar.ar_pln
      .ok (some ⟨sha, sip, tha, tip, ar.ar_op⟩)

/-- Total decoder: same as `arp_decodeE`; the error branch is unreachable
(`arp_decode_no_oob` below). -/
def arp_decodeMsg (buf : List Nat) : Option ArpMsg :=
  match arp_decodeE buf with
  | .ok r => r
  | .error _ => none

theorem readBytes_ok (buf : List Nat) :
    ∀ (n off : Nat), off + n ≤ buf.length →
      ∃ l, readBytes buf off n = .ok l ∧ l.length = n := by
  intro n
  induction n with
  | zero => intro off _; exact ⟨[], rfl, rfl⟩
  | succ m ih =>
    intro off hle
    have hoff : off < buf.length := by omega
    obtain ⟨l, hl, hlen⟩ := ih (off + 1) (by omega)
    refine ⟨buf.get ⟨off, hoff⟩ :: l, ?_, by simp [hlen]⟩
    simp [readBytes, readByte, hoff, hl, Bind.bind, Except.bind]

theorem readByte_ok (buf : List Nat) (i : Nat) (h : i < buf.length) :
    readByte buf i = .ok buf[i] := by
  simp [readByte, h]

/-- Claim C1: For every input buffer, the decoder of `arp_packet` never reads a
byte outside the supplied buffer (it never returns the out-of-bounds error);
it rejects any buffer shorter than the 8-byte ARP header; after reading the
peer-controlled `ar_hln`/`ar_pln` header bytes it rejects, before any field
copy, whenever `8 + 2*(ar_hln + ar_pln)` exceeds the buffer length; and in
particular an 8-byte buffer whose header claims hardware-length 255 is
rejected. -/
theorem arp_decode_bounds_safe :
    (∀ buf : List Nat, arp_decodeE buf ≠ .error ())
    ∧ (∀ buf : List Nat, buf.length < 8 → arp_decodeE buf = .ok none)
    ∧ (∀ buf : List Nat, 8 ≤ buf.length →
        buf.length < 8 + 2 * (buf.getD 4 0 + buf.getD 5 0) →
        arp_decodeE buf = .ok none)
    ∧ arp_decodeE [0, 1, 8, 0, 255, 4, 0, 1] = .ok none := by
  have hmain : ∀ buf : List Nat, ¬ buf.length < 8 →
      arp_decodeE buf ≠ .error () := by
    intro buf h8
    have h0 : 0 < buf.length := by omega
    have h1 : 1 < buf.length := by omega
    have h2 : 2 < buf.length := by omega
    have h3 : 3 < buf.length := by omega
    have h4 : 4 < buf.length := by omega
    have h5 : 5 < buf.length := by omega
    have h6 : 6 < buf.length := by omega
    have h7 : 7 < buf.length := by omega
    simp only [arp_decodeE, h8, if_false, readByte_ok buf 0 h0,
      readByte_ok buf 1 h1, readByte_ok buf 2 h2, readByte_ok buf 3 h3,
      readByte_ok buf 4 h4, readByte_ok buf 5 h5, readByte_ok buf 6 h6,
      readByte_ok buf 7 h7, Bind.bind, Except.bind]
    split
    · simp
    · next hcond =>
      obtain ⟨sha, hsha, -⟩ := readBytes_ok buf buf[4] 8 (by omega)
      obtain ⟨sip, hsip, -⟩ :=
        readBytes_ok buf buf[5] (8 + buf[4]) (by omega)
      obtain ⟨tha, htha, -⟩ :=
        readBytes_ok buf buf[4] (8 + buf[4] + buf[5]) (by omega)
      obtain ⟨tip, htip, -⟩ :=
        readBytes_ok buf buf[5] (8 + buf[4] + buf[5] + buf[4]) (by omega)
      simp [hsha, hsip, htha, htip, Except.bind]
  refine ⟨?_, ?_, ?_, ?_⟩
  · intro buf
    by_cases h8 : buf.length < 8
    · simp [arp_decodeE, h8]
    · exact hmain buf h8
  · intro buf h8
    simp [arp_decodeE, h8]
  · intro buf h8 hlt
    have h8' : ¬ buf.length < 8 := by omega
    have h4 : 4 < buf.length := by omega
    have h5 : 5 < buf.length := by omega
    have e4 : buf.getD 4 0 = buf[4] := by
      simp [List.getD_eq_getElem?_getD, List.getElem?_eq_getElem h4]
    have e5 : buf.getD 5 0 = buf[5] := by
      simp [List.getD_eq_getElem?_getD, List.getElem?_eq_getElem h5]
    simp only [arp_decodeE, h8', if_false, readByte_ok buf 4 h4,
      readByte_ok buf 5 h5, readByte_ok buf 0 (by omega : 0 < buf.length),
      readByte_ok buf 1 (by omega : 1 < buf.length),
      readByte_ok buf 2 (by omega : 2 < buf.length),
      readByte_ok buf 3 (by omega : 3 < buf.length),
      readByte_ok buf 6 (by omega : 6 < buf.length),
      readByte_ok buf 7 (by omega : 7 < buf.length), Bind.bind, Except.bind]
    split
    · rfl
    · next hcond => exfalso; rw [e4, e5] at hlt; omega
  · rfl

/-- Witness for `arp_decode_bounds_safe`: a 3-byte buffer is rejected, and
an 8-byte buffer claiming `ar_hln = 255` is rejected. -/
theorem arp_decode_bounds_safe_witness :
    arp_decodeE [0, 0, 0] = .ok none
    ∧ arp_decodeE [0, 1, 8, 0, 255, 4, 0, 1] = .ok none :=
  ⟨arp_decode_bounds_safe.2.1 [0, 0, 0] (by decide),
   arp_decode_bounds_safe.2.2.1 [0, 1, 8, 0, 255, 4, 0, 1]
     (by decide) (by decide)⟩

/-! ## Interface ARP context and session lifecycle
(`arp_find` arp.c:365-380, `arp_new` arp.c:382-415, `arp_cancel`/`arp_free`
arp.c:417-448, `arp_close` arp.c:176-186)

A session (`struct arp_state`) belongs to one interface; the interface's
`struct iarp_state` owns the BPF descriptor `fd` (`-1` = closed) and the
`TAILQ` of sessions in insertion order.  Session identity (the C pointer)
is modelled by an `id`.  Callback pointers are modelled by presence flags.
Calls into the external collaborators (event loop, BPF transport) are
emitted as events.  Allocation success of `malloc`/`calloc` is an explicit
boolean oracle. -/

/-- Model of `struct arp_state`: per-(interface, address) session.  `calloc`
zero-fills, so a new session has counters `0`, no callbacks, and address
`0.0.0.0` when created with a null address pointer. -/
structure LSession where
  id : Nat
  addr : List Nat
  probes : Nat
  claims : Nat
  hasConflicted : Bool
  hasProbed : Bool
  hasAnnounced : Bool
  hasFree : Bool
  deriving Repr, DecidableEq

/-- Model of `struct iarp_state`: the per-interface ARP context. -/
structure IarpState where
  fd : Int
  arp_states : List LSession
  deriving Repr, DecidableEq

/-- The interface's `if_data[IF_DATA_ARP]` slot: `none` = no context. -/
structure LIface where
  ifdata : Option IarpState
  deriving Repr, DecidableEq

/-- Calls made into the event loop / BPF transport collaborators. -/
inductive LEvent
  | timeoutDelete (sid : Nat)
  | freedCb (sid : Nat)
  | eloopEventDelete (fd : Int)
  | bpfClose (fd : Int)
  | bpfArp (fd : Int)
  deriving Repr, DecidableEq

/-- Function `arp_find` (arp.c:365-380): first session of the interface's context
whose address equals `a` (the `astate->iface == ifp` check is a tautology
for sessions stored in `ifp`'s own context). -/
def arp_find (w : LIface) (a : List Nat) : Option LSession :=
  match w.ifdata with
  | none => none
  | some st => st.arp_states.find? (fun s => s.addr == a)

/-- The `calloc`-produced session of `arp_new` (arp.c:402-408). -/
def newSession (fresh : Nat) (addr? : Option (List Nat)) : LSession :=
  { id := fresh, addr := addr?.getD [0, 0, 0, 0], probes := 0, claims := 0,
    hasConflicted := false, hasProbed := false, hasAnnounced := false,
    hasFree := false }

/-- Tail of `arp_new` from the `calloc` on (arp.c:402-414): allocate the
session (oracle `allocSess`), append it to the context's collection, refresh
the filter.  On allocation failure the context `st` stays attached as-is. -/
def arp_new_alloc (st : IarpState) (addr? : Option (List Nat))
    (allocSess : Bool) (fresh : Nat) : LIface × Option LSession :=
  if allocSess then
    let s := newSession fresh addr?
    (⟨some ⟨st.fd, st.arp_states ++ [s]⟩⟩, some s)
  else (⟨some st⟩, none)

/-- Function `arp_new` (arp.c:382-415): lazily create the context (descriptor stays
`-1`), or return the existing session for `addr?` if the context already
exists; otherwise allocate and append a fresh session. -/
def arp_new (w : LIface) (addr? : Option (List Nat))
    (allocCtx allocSess : Bool) (fresh : Nat) : LIface × Option LSession :=
  match w.ifdata with
  | none =>
    if allocCtx then arp_new_alloc ⟨-1, []⟩ addr? allocSess fresh
    else (w, none)
  | some st =>
    match addr? with
    | some a =>
      match st.arp_states.find? (fun s => s.addr == a) with
      | some s => (w, some s)
      | none => arp_new_alloc st addr? allocSess fresh
    | none => arp_new_alloc st addr? allocSess fresh

/-- Function `arp_close` (arp.c:176-186): if the context exists and its descriptor
is open, deregister it from the event loop and close it. -/
def arp_close (w : LIface) : LIface × List LEvent :=
  match w.ifdata with
  | some st =>
    if st.fd ≠ -1 then
      (⟨some ⟨-1, st.arp_states⟩⟩, [.eloopEventDelete st.fd, .bpfClose st.fd])
    else (w, [])
  | none => (w, [])

/-- Effect of `TAILQ_REMOVE` of the session with identity `sid` (removes the first —
under unique ids, the only — node with that identity). -/
def eraseSession (l : List LSession) (sid : Nat) : List LSession :=
  l.eraseP (fun t => t.id == sid)

/-- Function `arp_free` (arp.c:424-448): null check; cancel the session's timers;
unlink it; run `free_cb` if present; release it; then either tear the
context down (collection became empty: `arp_close`, release context) or
refresh the receive filter.  (A non-null session with no context would be
undefined behaviour in the C; the model leaves the world unchanged, a case
outside every claim.) -/
def arp_free (w : LIface) (s? : Option LSession) : LIface × List LEvent :=
  match s? with
  | none => (w, [])
  | some s =>
    match w.ifdata with
    | none => (w, [])
    | some st =>
      let rest := eraseSession st.arp_states s.id
      let evs := [LEvent.timeoutDelete s.id]
        ++ (if s.hasFree then [LEvent.freedCb s.id] else [])
      if rest.isEmpty then
        (⟨none⟩, evs ++ (arp_close ⟨some ⟨st.fd, rest⟩⟩).2)
      else
        (⟨some ⟨st.fd, rest⟩⟩, evs ++ [LEvent.bpfArp st.fd])

/-- Size of the interface's session collection. -/
def sessionCount (w : LIface) : Nat :=
  match w.ifdata with
  | none => 0
  | some st => st.arp_states.length

/-- Claim C10: `arp_free` on a null session is a no-op: it returns at the
null check, leaving the interface context, the session collection and the
transport descriptor unchanged, and makes no external calls. -/
theorem arp_free_null_noop : ∀ w : LIface, arp_free w none = (w, []) := by
  intro w
  rfl

/-- Claim C5, counterexample: With no pre-existing context, `arp_new` under a
failing session allocation returns the failure but leaves the freshly
created (empty, descriptor closed) interface context attached — partial
state remains, contradicting the claim. -/
theorem arp_new_leftover_context_cex :
    (arp_new ⟨none⟩ (some [192, 168, 0, 1]) true false 0).2 = none
    ∧ (arp_new ⟨none⟩ (some [192, 168, 0, 1]) true false 0).1.ifdata
        = some ⟨-1, []⟩
    ∧ (arp_new ⟨none⟩ (some [192, 168, 0, 1]) true false 0).1.ifdata
        ≠ none := by
  refine ⟨rfl, rfl, by simp [arp_new, arp_new_alloc]⟩

/-- Claim C5, amended: When `arp_new` fails due to allocation failure it
returns the failure and registers no session: a context allocation failure
leaves the interface entirely unchanged (nothing attached); a session
allocation failure with a pre-existing context (and the pair not already
present) leaves the interface unchanged; a session allocation failure right
after the context was freshly created leaves that empty context (descriptor
closed, no sessions) attached. -/
theorem arp_new_alloc_failure_amended :
    (∀ (w : LIface) (a? : Option (List Nat)) (b : Bool) (f : Nat),
      w.ifdata = none → arp_new w a? false b f = (w, none))
    ∧ (∀ (w : LIface) (a? : Option (List Nat)) (f : Nat),
        w.ifdata = none → arp_new w a? true false f = (⟨some ⟨-1, []⟩⟩, none))
    ∧ (∀ (st : IarpState) (a : List Nat) (b : Bool) (f : Nat),
        st.arp_states.find? (fun s => s.addr == a) = none →
        arp_new ⟨some st⟩ (some a) b false f = (⟨some st⟩, none))
    ∧ (∀ (st : IarpState) (b : Bool) (f : Nat),
        arp_new ⟨some st⟩ none b false f = (⟨some st⟩, none)) := by
  refine ⟨?_, ?_, ?_, ?_⟩
  · intro w a? b f h
    cases w with
    | mk d => cases d with
      | none => rfl
      | some st => simp at h
  · intro w a? f h
    cases w with
    | mk d => cases d with
      | none => cases a? <;> rfl
      | some st => simp at h
  · intro st a b f h
    simp [arp_new, h, arp_new_alloc]
  · intro st b f
    rfl

/-- Witness for `arp_new_alloc_failure_amended` at concrete inputs. -/
theorem arp_new_alloc_failure_amended_witness :
    arp_new ⟨none⟩ (some [10, 0, 0, 1]) false true 7 = (⟨none⟩, none)
    ∧ arp_new ⟨none⟩ (some [10, 0, 0, 1]) true false 7
        = (⟨some ⟨-1, []⟩⟩, none)
    ∧ arp_new ⟨some ⟨-1, []⟩⟩ (some [10, 0, 0, 1]) true false 7
        = (⟨some ⟨-1, []⟩⟩, none) :=
  ⟨arp_new_alloc_failure_amended.1 ⟨none⟩ (some [10, 0, 0, 1]) true 7 rfl,
   arp_new_alloc_failure_amended.2.1 ⟨none⟩ (some [10, 0, 0, 1]) 7 rfl,
   arp_new_alloc_failure_amended.2.2.1 ⟨-1, []⟩ [10, 0, 0, 1] true 7 (by decide)⟩

/-- Claim C8: `arp_new` is idempotent per (interface, address) pair: a second
call with the same non-null address returns the very session the first call
returned and leaves the world unchanged (no second allocation); starting
from an interface with no context, the collection size is 1 after the first
call and still 1 after the second. -/
theorem arp_new_idempotent :
    (∀ (w w1 : LIface) (a : List Nat) (f1 f2 : Nat) (b1 b2 : Bool)
        (s : LSession),
      arp_new w (some a) true true f1 = (w1, some s) →
      arp_new w1 (some a) b1 b2 f2 = (w1, some s))
    ∧ (∀ (a : List Nat) (f1 : Nat),
        sessionCount (arp_new ⟨none⟩ (some a) true true f1).1 = 1)
    ∧ (∀ (a : List Nat) (f1 f2 : Nat) (b1 b2 : Bool),
        sessionCount
          (arp_new (arp_new ⟨none⟩ (some a) true true f1).1
            (some a) b1 b2 f2).1 = 1) := by
  have key : ∀ (w w1 : LIface) (a : List Nat) (f1 f2 : Nat) (b1 b2 : Bool)
      (s : LSession),
      arp_new w (some a) true true f1 = (w1, some s) →
      arp_new w1 (some a) b1 b2 f2 = (w1, some s) := by
    intro w w1 a f1 f2 b1 b2 s h
    obtain ⟨d⟩ := w
    cases d with
    | none =>
      simp [arp_new, arp_new_alloc] at h
      obtain ⟨hw1, hs⟩ := h
      subst hw1
      simp [arp_new, newSession, ← hs]
    | some st =>
      rcases hf : st.arp_states.find? (fun s => s.addr == a) with _ | s'
      · simp [arp_new, hf, arp_new_alloc] at h
        obtain ⟨hw1, hs⟩ := h
        have hfind : (st.arp_states ++ [newSession f1 (some a)]).find?
            (fun s => s.addr == a) = some (newSession f1 (some a)) := by
          rw [List.find?_append, hf]
          simp [newSession]
        subst hw1
        simp [arp_new, hfind, ← hs]
      · simp [arp_new, hf] at h
        obtain ⟨hw1, hs⟩ := h
        subst hw1
        simp [arp_new, hf, hs]
  have first : ∀ (a : List Nat) (f1 : Nat),
      arp_new ⟨none⟩ (some a) true true f1
        = (⟨some ⟨-1, [newSession f1 (some a)]⟩⟩, some (newSession f1 (some a))) := by
    intro a f1
    rfl
  refine ⟨key, ?_, ?_⟩
  · intro a f1
    rw [first]
    rfl
  · intro a f1 f2 b1 b2
    have h2 := key ⟨none⟩ _ a f1 f2 b1 b2 _ (first a f1)
    calc sessionCount
          (arp_new (arp_new ⟨none⟩ (some a) true true f1).1
            (some a) b1 b2 f2).1
        = sessionCount
            (arp_new ⟨some ⟨-1, [newSession f1 (some a)]⟩⟩
              (some a) b1 b2 f2).1 := by rw [first]
      _ = 1 := by rw [h2]; rfl

/-- Witness for `arp_new_idempotent`: the concrete double-create. -/
theorem arp_new_idempotent_witness :
    arp_new (arp_new ⟨none⟩ (some [10, 0, 0, 9]) true true 3).1
        (some [10, 0, 0, 9]) true true 4
      = ((arp_new ⟨none⟩ (some [10, 0, 0, 9]) true true 3).1,
         (arp_new ⟨none⟩ (some [10, 0, 0, 9]) true true 3).2)
    ∧ sessionCount
        (arp_new (arp_new ⟨none⟩ (some [10, 0, 0, 9]) true true 3).1
          (some [10, 0, 0, 9]) true true 4).1 = 1 :=
  ⟨arp_new_idempotent.1 ⟨none⟩ _ [10, 0, 0, 9] 3 4 true true
      (newSession 3 (some [10, 0, 0, 9])) rfl,
   arp_new_idempotent.2.2 [10, 0, 0, 9] 3 4 true true⟩

theorem eraseP_no_match {α : Type} {p : α → Bool} {l : List α} {s : α}
    (hfil : l.filter p = [s]) : ∀ t ∈ l.eraseP p, p t = false := by
  induction l with
  | nil => simp
  | cons x xs ih =>
    intro t ht
    by_cases hx : p x
    · rw [List.eraseP_cons_of_pos hx] at ht
      rw [List.filter_cons_of_pos hx] at hfil
      have hnil : xs.filter p = [] := by
        simpa using congrArg List.tail hfil
      have := List.filter_eq_nil_iff.mp hnil t ht
      simpa using this
    · rw [List.eraseP_cons_of_neg hx] at ht
      rw [List.filter_cons_of_neg hx] at hfil
      rw [List.mem_cons] at ht
      rcases ht with rfl | ht
      · simpa using hx
      · exact ih hfil t ht

/-- Claim C7: `arp_free` on a registered session cancels its timers, removes
exactly that session from its interface's collection, invokes `free_cb` iff
present, and then: if the collection became empty, releases the context
(`ifdata = none`) and closes the open transport descriptor; otherwise keeps
the context with the same (still open) descriptor and remaining sessions,
refreshing only the receive filter (no close, no event-loop
deregistration). -/
theorem arp_free_lifecycle :
    ∀ (st : IarpState) (s : LSession),
      st.arp_states.filter (fun t => t.id == s.id) = [s] →
      (LEvent.timeoutDelete s.id ∈ (arp_free ⟨some st⟩ (some s)).2)
      ∧ ((LEvent.freedCb s.id ∈ (arp_free ⟨some st⟩ (some s)).2)
          ↔ s.hasFree = true)
      ∧ (∀ t ∈ eraseSession st.arp_states s.id, t.id ≠ s.id)
      ∧ (∀ t ∈ st.arp_states, t.id ≠ s.id →
          t ∈ eraseSession st.arp_states s.id)
      ∧ (eraseSession st.arp_states s.id = [] →
          (arp_free ⟨some st⟩ (some s)).1 = ⟨none⟩
          ∧ (st.fd ≠ -1 →
              LEvent.bpfClose st.fd ∈ (arp_free ⟨some st⟩ (some s)).2))
      ∧ (eraseSession st.arp_states s.id ≠ [] →
          (arp_free ⟨some st⟩ (some s)).1
              = ⟨some ⟨st.fd, eraseSession st.arp_states s.id⟩⟩
          ∧ LEvent.bpfArp st.fd ∈ (arp_free ⟨some st⟩ (some s)).2
          ∧ (∀ f : Int, LEvent.bpfClose f ∉ (arp_free ⟨some st⟩ (some s)).2)
          ∧ (∀ f : Int,
              LEvent.eloopEventDelete f ∉ (arp_free ⟨some st⟩ (some s)).2)) := by
  intro st s hfil
  by_cases hE : eraseSession st.arp_states s.id = []
  · have hfree : arp_free ⟨some st⟩ (some s)
        = (⟨none⟩,
           ([LEvent.timeoutDelete s.id]
             ++ (if s.hasFree then [LEvent.freedCb s.id] else []))
             ++ (arp_close ⟨some ⟨st.fd, eraseSession st.arp_states s.id⟩⟩).2) := by
      simp [arp_free, hE]
    refine ⟨?_, ?_, ?_, ?_, ?_, ?_⟩
    · rw [hfree]; simp
    · rw [hfree]
      cases hcb : s.hasFree <;> simp [arp_close, hE]
      all_goals try (split <;> simp)
    · intro t ht
      have := eraseP_no_match hfil t ht
      simpa using this
    · intro t ht htid
      have : (fun u : LSession => u.id == s.id) t = false := by
        simpa using htid
      exact (List.mem_eraseP_of_neg (by simp [htid])).mpr ht
    · intro _
      refine ⟨by rw [hfree], ?_⟩
      intro hfd
      rw [hfree]
      simp [arp_close, hE, hfd]
    · intro hne
      exact absurd hE hne
  · have hfree : arp_free ⟨some st⟩ (some s)
        = (⟨some ⟨st.fd, eraseSession st.arp_states s.id⟩⟩,
           ([LEvent.timeoutDelete s.id]
             ++ (if s.hasFree then [LEvent.freedCb s.id] else []))
             ++ [LEvent.bpfArp st.fd]) := by
      simp [arp_free, hE]
    refine ⟨?_, ?_, ?_, ?_, ?_, ?_⟩
    · rw [hfree]; simp
    · rw [hfree]
      cases hcb : s.hasFree <;> simp
    · intro t ht
      have := eraseP_no_match hfil t ht
      simpa using this
    · intro t ht htid
      exact (List.mem_eraseP_of_neg (by simp [htid])).mpr ht
    · intro h
      exact absurd h hE
    · intro _
      refine ⟨by rw [hfree], by rw [hfree]; simp, ?_, ?_⟩
      · intro f
        rw [hfree]
        cases s.hasFree <;> simp
      · intro f
        rw [hfree]
        cases s.hasFree <;> simp

/-- Witness for `arp_free_lifecycle`: freeing the last session of an
interface whose descriptor is open closes it and releases the context. -/
theorem arp_free_lifecycle_witness :
    (arp_free
      ⟨some ⟨5, [⟨1, [10, 0, 0, 1], 0, 0, false, false, false, true⟩]⟩⟩
      (some ⟨1, [10, 0, 0, 1], 0, 0, false, false, false, true⟩)).1 = ⟨none⟩
    ∧ LEvent.bpfClose 5 ∈
        (arp_free
          ⟨some ⟨5, [⟨1, [10, 0, 0, 1], 0, 0, false, false, false, true⟩]⟩⟩
          (some ⟨1, [10, 0, 0, 1], 0, 0, false, false, false, true⟩)).2 := by
  have h := arp_free_lifecycle
    ⟨5, [⟨1, [10, 0, 0, 1], 0, 0, false, false, false, true⟩]⟩
    ⟨1, [10, 0, 0, 1], 0, 0, false, false, false, true⟩ (by decide)
  obtain ⟨-, -, -, -, hempty, -⟩ := h
  obtain ⟨h1, h2⟩ := hempty (by decide)
  exact ⟨h1, h2 (by decide)⟩

/-! ## Probing (`arp_probe1` arp.c:241-266, `arp_probe` arp.c:268-284,
`arp_probed` arp.c:233-239)

The probe state machine is modelled as the event trace the event loop
produces: only one timer per session is ever pending, so the run is a
linear recursion.  `jit` is the stream of `arc4random_uniform((PROBE_MAX -
PROBE_MIN) * NSEC_PER_SEC)` draws (the uniformity bound is a hypothesis of
the theorem); times are in nanoseconds from the first send.  `arp_request`
with `sip = 0` is a send with sender IP `0.0.0.0`. -/

inductive PEvent
  | send (sip tip : List Nat) (t : Nat)
  | probedFire (t : Nat)
  deriving Repr, DecidableEq

def PEvent.isSend : PEvent → Bool
  | .send _ _ _ => true
  | _ => false

def PEvent.isProbedFire : PEvent → Bool
  | .probedFire _ => true
  | _ => false

/-- One firing of `arp_probe1` at time `t` with counter `probes`:
pre-increment the counter; while it is still below `PROBE_NUM`, schedule
the next `arp_probe1` after `PROBE_MIN` seconds plus the random
sub-second jitter, else schedule `arp_probed` after `ANNOUNCE_WAIT`
seconds; then send the probe (`arp_request(ifp, 0, addr)`).  The fuel is
`PROBE_NUM` at the entry call and strictly bounds the recursion depth. -/
def arp_probe1_run (fuel : Nat) (addr : List Nat) (jit : Nat → Nat)
    (k t probes : Nat) : List PEvent :=
  match fuel with
  | 0 => []
  | fuel + 1 =>
    let p := probes + 1
    if p < PROBE_NUM then
      PEvent.send [0, 0, 0, 0] addr t
        :: arp_probe1_run fuel addr jit (k + 1)
            (t + PROBE_MIN * NSEC_PER_SEC + jit k) p
    else
      [PEvent.send [0, 0, 0, 0] addr t,
       PEvent.probedFire (t + ANNOUNCE_WAIT * NSEC_PER_SEC)]

/-- Function `arp_probe` (arp.c:268-284): if the transport open fails, return
without probing; else (filter refresh elided — an external call with no
trace effect here) reset the probe counter `p0` to 0 and run `arp_probe1`
immediately. -/
def arp_probe_run (openOk : Bool) (p0 : Nat) (addr : List Nat)
    (jit : Nat → Nat) : List PEvent :=
  if openOk then arp_probe1_run PROBE_NUM addr jit 0 0 0 else []

/-- Claim C2: When the transport opens, `arp_probe` resets the probe counter
(the trace is independent of the prior counter `p0`), sends the first probe
immediately at `t = 0`, sends every probe with sender IP `0.0.0.0` and
target IP the candidate address, spaces consecutive probes by
`PROBE_MIN*10^9 + jit k` nanoseconds — a delay in `[PROBE_MIN, PROBE_MAX)`
seconds given the `arc4random_uniform` bound — performs exactly
`PROBE_NUM = 3` sends, and fires `probed` exactly once, exactly
`ANNOUNCE_WAIT = 2` seconds after the third send. -/
theorem arp_probe_timing (addr : List Nat) (p0 : Nat) (jit : Nat → Nat)
    (hj : ∀ k, jit k < (PROBE_MAX - PROBE_MIN) * NSEC_PER_SEC) :
    arp_probe_run true p0 addr jit
      = [PEvent.send [0, 0, 0, 0] addr 0,
         PEvent.send [0, 0, 0, 0] addr (PROBE_MIN * NSEC_PER_SEC + jit 0),
         PEvent.send [0, 0, 0, 0] addr
           (PROBE_MIN * NSEC_PER_SEC + jit 0 + PROBE_MIN * NSEC_PER_SEC
             + jit 1),
         PEvent.probedFire
           (PROBE_MIN * NSEC_PER_SEC + jit 0 + PROBE_MIN * NSEC_PER_SEC
             + jit 1 + ANNOUNCE_WAIT * NSEC_PER_SEC)]
    ∧ (arp_probe_run true p0 addr jit).countP PEvent.isSend = PROBE_NUM
    ∧ (arp_probe_run true p0 addr jit).countP PEvent.isProbedFire = 1
    ∧ (∀ k, PROBE_MIN * NSEC_PER_SEC ≤ PROBE_MIN * NSEC_PER_SEC + jit k
        ∧ PROBE_MIN * NSEC_PER_SEC + jit k < PROBE_MAX * NSEC_PER_SEC) := by
  have htr : arp_probe_run true p0 addr jit
      = [PEvent.send [0, 0, 0, 0] addr 0,
         PEvent.send [0, 0, 0, 0] addr (PROBE_MIN * NSEC_PER_SEC + jit 0),
         PEvent.send [0, 0, 0, 0] addr
           (PROBE_MIN * NSEC_PER_SEC + jit 0 + PROBE_MIN * NSEC_PER_SEC
             + jit 1),
         PEvent.probedFire
           (PROBE_MIN * NSEC_PER_SEC + jit 0 + PROBE_MIN * NSEC_PER_SEC
             + jit 1 + ANNOUNCE_WAIT * NSEC_PER_SEC)] := by
    simp [arp_probe_run, arp_probe1_run, PROBE_NUM]
  refine ⟨htr, ?_, ?_, ?_⟩
  · rw [htr]
    simp [PEvent.isSend, PEvent.isProbedFire, PROBE_NUM]
  · rw [htr]
    simp [PEvent.isSend, PEvent.isProbedFire]
  · intro k
    have hk := hj k
    simp only [PROBE_MIN, PROBE_MAX, NSEC_PER_SEC] at hk ⊢
    omega

/-- Witness for `arp_probe_timing`: zero jitter, any prior counter. -/
theorem arp_probe_timing_witness :
    arp_probe_run true 7 [169, 254, 1, 1] (fun _ => 0)
      = [PEvent.send [0, 0, 0, 0] [169, 254, 1, 1] 0,
         PEvent.send [0, 0, 0, 0] [169, 254, 1, 1] 1000000000,
         PEvent.send [0, 0, 0, 0] [169, 254, 1, 1] 2000000000,
         PEvent.probedFire 4000000000] := by
  have h := (arp_probe_timing [169, 254, 1, 1] 7 (fun _ => 0)
    (by intro k; norm_num [PROBE_MAX, PROBE_MIN, NSEC_PER_SEC])).1
  simpa [PROBE_MIN, NSEC_PER_SEC, ANNOUNCE_WAIT] using h

/-! ## Announcing (`arp_announce1` arp.c:302-330, `arp_announce`
arp.c:332-345, `arp_announced` arp.c:289-300)

Modelled for the standard build of this translation unit (`ARP` defined,
`KERNEL_RFC5227` undefined, the compile guard at arp.c:56).  The announce
run acts on the lifecycle world so that its (non-)effect on the session
collection is provable; `arp_open` is abstracted by the `openOk` oracle
(the transport is an external collaborator).  Times are in seconds from
the first send. -/

inductive AEvent
  | send (sip tip : List Nat) (t : Nat)
  | announcedCb (sid : Nat) (t : Nat)
  deriving Repr, DecidableEq

def AEvent.isSend : AEvent → Bool
  | .send _ _ _ => true
  | _ => false

def AEvent.isAnnouncedCb : AEvent → Bool
  | .announcedCb _ _ => true
  | _ => false

/-- Look up the session with identity `sid` in the interface's context. -/
def getSession (w : LIface) (sid : Nat) : Option LSession :=
  match w.ifdata with
  | none => none
  | some st => st.arp_states.find? (fun t => t.id == sid)

/-- Assignment `astate->claims = c` for the session with identity `sid`. -/
def setClaims (w : LIface) (sid c : Nat) : LIface :=
  match w.ifdata with
  | none => w
  | some st =>
    ⟨some ⟨st.fd, st.arp_states.map
      (fun t => if t.id == sid then { t with claims := c } else t)⟩⟩

/-- One firing of `arp_announce1` at time `t`: pre-increment `claims`,
send the announcement (`arp_request(ifp, addr, addr)`), then schedule
`arp_announce1` again after `ANNOUNCE_WAIT` seconds while `claims` is
below `ANNOUNCE_NUM`, else schedule `arp_announced`, which invokes
`announced_cb` iff present.  Fuel is `ANNOUNCE_NUM` at entry and strictly
bounds the recursion depth. -/
def arp_announce1_run (fuel : Nat) (w : LIface) (sid : Nat) (t : Nat) :
    LIface × List AEvent :=
  match fuel with
  | 0 => (w, [])
  | fuel + 1 =>
    match getSession w sid with
    | none => (w, [])
    | some s =>
      let c := s.claims + 1
      let w1 := setClaims w sid c
      if c < ANNOUNCE_NUM then
        let r := arp_announce1_run fuel w1 sid (t + ANNOUNCE_WAIT)
        (r.1, AEvent.send s.addr s.addr t :: r.2)
      else
        (w1, [AEvent.send s.addr s.addr t]
          ++ (if s.hasAnnounced then
                [AEvent.announcedCb sid (t + ANNOUNCE_WAIT)]
              else []))

/-- Function `arp_announce` (arp.c:332-345): open the transport (oracle `openOk`;
on failure return without announcing), reset the announce counter to 0,
run `arp_announce1` immediately. -/
def arp_announce_run (openOk : Bool) (w : LIface) (sid : Nat) :
    LIface × List AEvent :=
  if openOk then arp_announce1_run ANNOUNCE_NUM (setClaims w sid 0) sid 0
  else (w, [])

/-- The identities of the sessions registered on the interface. -/
def sessionIds (w : LIface) : List Nat :=
  match w.ifdata with
  | none => []
  | some st => st.arp_states.map (fun t => t.id)

/-- The addresses of the sessions registered on the interface. -/
def sessionAddrs (w : LIface) : List (List Nat) :=
  match w.ifdata with
  | none => []
  | some st => st.arp_states.map (fun t => t.addr)

theorem find?_map_setClaims (l : List LSession) (sid c : Nat) :
    (l.map (fun t => if t.id == sid then { t with claims := c } else t)).find?
        (fun t => t.id == sid)
      = (l.find? (fun t => t.id == sid)).map
          (fun t => { t with claims := c }) := by
  induction l with
  | nil => rfl
  | cons x xs ih =>
    by_cases hx : x.id = sid
    · simp [hx]
    · have hx' : (x.id == sid) = false := by simpa using hx
      simp only [List.map_cons, hx', if_false]
      rw [List.find?_cons_of_neg _ (by simp [hx]),
        List.find?_cons_of_neg _ (by simp [hx])]
      exact ih

theorem getSession_setClaims (w : LIface) (sid c : Nat) :
    getSession (setClaims w sid c) sid
      = (getSession w sid).map (fun t => { t with claims := c }) := by
  obtain ⟨d⟩ := w
  cases d with
  | none => rfl
  | some st => simpa [getSession, setClaims] using find?_map_setClaims _ sid c

theorem sessionIds_setClaims (w : LIface) (sid c : Nat) :
    sessionIds (setClaims w sid c) = sessionIds w := by
  obtain ⟨d⟩ := w
  cases d with
  | none => rfl
  | some st =>
    simp only [sessionIds, setClaims, List.map_map]
    refine List.map_congr_left ?_
    intro t ht
    by_cases h : t.id = sid <;> simp [h]

theorem sessionAddrs_setClaims (w : LIface) (sid c : Nat) :
    sessionAddrs (setClaims w sid c) = sessionAddrs w := by
  obtain ⟨d⟩ := w
  cases d with
  | none => rfl
  | some st =>
    simp only [sessionAddrs, setClaims, List.map_map]
    refine List.map_congr_left ?_
    intro t ht
    by_cases h : t.id = sid <;> simp [h]

/-- Claim C3: Starting announce on a registered session (with an `announced`
callback) resets the announce counter to 0 (the trace is independent of the
prior counter), sends the first announcement immediately and the second
`ANNOUNCE_WAIT = 2` seconds later — exactly `ANNOUNCE_NUM = 2` sends, each
an ARP request with sender IP = target IP = the claimed address — fires the
`announced` callback exactly once, `ANNOUNCE_WAIT` seconds after the second
send and with nothing scheduled afterwards, and leaves the session
registered in the interface's collection with its identity and address (the
data conflict dispatch matches on) unchanged. -/
theorem arp_announce_timing :
    ∀ (w : LIface) (sid : Nat) (s : LSession),
      getSession w sid = some s → s.hasAnnounced = true →
      (arp_announce_run true w sid).2
        = [AEvent.send s.addr s.addr 0,
           AEvent.send s.addr s.addr ANNOUNCE_WAIT,
           AEvent.announcedCb sid (ANNOUNCE_WAIT + ANNOUNCE_WAIT)]
      ∧ (arp_announce_run true w sid).2.countP AEvent.isSend = ANNOUNCE_NUM
      ∧ (arp_announce_run true w sid).2.countP AEvent.isAnnouncedCb = 1
      ∧ getSession (arp_announce_run true w sid).1 sid
          = some { s with claims := ANNOUNCE_NUM }
      ∧ sessionIds (arp_announce_run true w sid).1 = sessionIds w
      ∧ sessionAddrs (arp_announce_run true w sid).1 = sessionAddrs w := by
  intro w sid s hs hcb
  have h0 : getSession (setClaims w sid 0) sid
      = some { s with claims := 0 } := by
    rw [getSession_setClaims, hs]
    rfl
  have h1 : getSession (setClaims (setClaims w sid 0) sid 1) sid
      = some { s with claims := 1 } := by
    rw [getSession_setClaims, h0]
    rfl
  have hrun : arp_announce_run true w sid
      = (setClaims (setClaims (setClaims w sid 0) sid 1) sid 2,
         [AEvent.send s.addr s.addr 0,
          AEvent.send s.addr s.addr 2,
          AEvent.announcedCb sid 4]) := by
    simp [arp_announce_run, arp_announce1_run, ANNOUNCE_NUM, ANNOUNCE_WAIT,
      h0, h1, hcb]
  refine ⟨?_, ?_, ?_, ?_, ?_, ?_⟩
  · rw [hrun]
    rfl
  · rw [hrun]
    simp [AEvent.isSend, AEvent.isAnnouncedCb, ANNOUNCE_NUM]
  · rw [hrun]
    simp [AEvent.isSend, AEvent.isAnnouncedCb]
  · rw [hrun, getSession_setClaims, h1]
    rfl
  · rw [hrun]
    simp only [sessionIds_setClaims]
  · rw [hrun]
    simp only [sessionAddrs_setClaims]

/-- Witness for `arp_announce_timing`: a single registered session with an
`announced` callback and a stale counter 5. -/
theorem arp_announce_timing_witness :
    (arp_announce_run true
      ⟨some ⟨3, [⟨1, [10, 0, 0, 2], 0, 5, false, false, true, false⟩]⟩⟩ 1).2
      = [AEvent.send [10, 0, 0, 2] [10, 0, 0, 2] 0,
         AEvent.send [10, 0, 0, 2] [10, 0, 0, 2] 2,
         AEvent.announcedCb 1 4] := by
  have h := (arp_announce_timing
    ⟨some ⟨3, [⟨1, [10, 0, 0, 2], 0, 5, false, false, true, false⟩]⟩⟩ 1
    ⟨1, [10, 0, 0, 2], 0, 5, false, false, true, false⟩ (by decide) rfl).1
  simpa [ANNOUNCE_WAIT] using h

/-! ## Conflict dispatch (`arp_packet` arp.c:165-174) over an explicit
linked-collection model

The `TAILQ_FOREACH_SAFE` loop of `arp_packet` snapshots the current node's
`next` pointer before invoking its `conflicted_cb`; a callback may call
`arp_free` on its own or on any other session of the collection.  To settle
the mid-iteration-free claims, the collection is modelled at the
linked-structure level with standard `sys/queue.h` semantics: `queue` is
the list of live node identities in TAILQ order; `TAILQ_REMOVE` rewires
the neighbours but leaves the removed node's own `next` field untouched,
so `staleNext` records, for a freed node, the successor it had at its
removal (the memory of a freed node is modelled as retained: its fields
stay readable, `freed` marks it dead).  A callback's effect is the static
list `frees` of live sessions it frees; the other effects of `arp_free`
(timers, filter, context teardown) do not touch the iteration and are
covered by `arp_free_lifecycle`. -/

/-- A session as the dispatcher sees it: address, presence of
`conflicted_cb`, and the sessions that callback frees when invoked. -/
structure DNode where
  addr : List Nat
  cb : Bool
  frees : List Nat

/-- The linked-collection world of one interface's sessions. -/
structure DWorld where
  queue : List Nat
  nodes : Nat → DNode
  staleNext : Nat → Option Nat
  freed : Nat → Bool

/-- The element following the first occurrence of `i` in `q`
(the live `TAILQ_NEXT`). -/
def succIn (q : List Nat) (i : Nat) : Option Nat :=
  match q with
  | [] => none
  | x :: xs => if x = i then xs.head? else succIn xs i

/-- Reading node `i`'s `next` field: its live successor while `i` is in
the queue, its retained (stale) value after `i` was freed. -/
def nextOf (w : DWorld) (i : Nat) : Option Nat :=
  if i ∈ w.queue then succIn w.queue i else w.staleNext i

/-- The collection effect of `arp_free` on a live session `i`:
`TAILQ_REMOVE` unlinks it (its own `next` field keeps the value it had),
and the node is dead afterwards.  Freeing a non-member is undefined
behaviour in the C (double free) and outside every claim; the model leaves
the world unchanged there. -/
def dfree (w : DWorld) (i : Nat) : DWorld :=
  if i ∈ w.queue then
    { queue := w.queue.erase i,
      nodes := w.nodes,
      staleNext := fun j => if j = i then succIn w.queue i else w.staleNext j,
      freed := fun j => if j = i then true else w.freed j }
  else w

/-- Run a conflicted callback's `arp_free` calls in order. -/
def runFrees (w : DWorld) : List Nat → DWorld
  | [] => w
  | i :: rest => runFrees (dfree w i) rest

/-- The `TAILQ_FOREACH_SAFE` loop body of `arp_packet` (arp.c:167-173):
at node `i`, snapshot `next` (`astaten`), skip unless the message's sender
or target IP equals the node's address, invoke `conflicted_cb` if present
(running its frees), continue at the snapshot.  Returns the final world and
the identities whose callback was invoked, in invocation order.  `fuel`
(the initial queue length at entry) strictly bounds the number of visited
nodes. -/
def dgo (fuel : Nat) (w : DWorld) (cur : Option Nat) (sip tip : List Nat) :
    DWorld × List Nat :=
  match fuel with
  | 0 => (w, [])
  | fuel + 1 =>
    match cur with
    | none => (w, [])
    | some i =>
      let nxt := nextOf w i
      let n := w.nodes i
      if sip ≠ n.addr ∧ tip ≠ n.addr then
        dgo fuel w nxt sip tip
      else if n.cb then
        let r := dgo fuel (runFrees w n.frees) nxt sip tip
        (r.1, i :: r.2)
      else
        dgo fuel w nxt sip tip

/-- The conflict-dispatch loop of `arp_packet`, from the head of the
interface's session collection. -/
def arp_dispatch (w : DWorld) (m : ArpMsg) : DWorld × List Nat :=
  dgo w.queue.length w w.queue.head? m.sip m.tip

/-- Function `arp_packet` (arp.c:110-174): decode and validate the frame, drop it
silently when the decoded sender hardware address equals the hardware
address of any known local interface (`ar_hln == ifn->hwlen &&
memcmp(hw_s, ifn->hwaddr, ifn->hwlen) == 0`, i.e. list equality of `sha` —
which has exactly `ar_hln` bytes — with the interface's address bytes),
otherwise run the conflict dispatch. -/
def arp_packet_run (ifaces : List (List Nat)) (w : DWorld)
    (buf : List Nat) : DWorld × List Nat :=
  match arp_decodeMsg buf with
  | none => (w, [])
  | some arm =>
    if ifaces.any (fun hw => arm.sha == hw) then (w, [])
    else arp_dispatch w arm

theorem succIn_append (pre rest : List Nat) (i : Nat)
    (h : (pre ++ i :: rest).Nodup) :
    succIn (pre ++ i :: rest) i = rest.head? := by
  induction pre with
  | nil => simp [succIn]
  | cons y pre ih =>
    have hy : y ≠ i := by
      have := (List.pairwise_cons.mp h).1 i (by simp)
      exact this
    rw [List.cons_append, succIn, if_neg hy]
    exact ih ((List.pairwise_cons.mp h).2)

theorem dgo_pure (sip tip : List Nat) (w : DWorld)
    (hf : ∀ i, (w.nodes i).frees = []) (hnd : w.queue.Nodup) :
    ∀ (rest : List Nat), (∃ pre, w.queue = pre ++ rest) →
      ∀ fuel : Nat, rest.length ≤ fuel →
      dgo fuel w rest.head? sip tip
        = (w, rest.filter (fun i =>
            decide (sip = (w.nodes i).addr ∨ tip = (w.nodes i).addr)
              && (w.nodes i).cb)) := by
  intro rest
  induction rest with
  | nil =>
    intro _ fuel _
    cases fuel <;> simp [dgo]
  | cons i rest ih =>
    rintro ⟨pre, hq⟩ fuel hle
    cases fuel with
    | zero => simp at hle
    | succ f =>
      have hmem : i ∈ w.queue := by rw [hq]; simp
      have hnext : nextOf w i = rest.head? := by
        rw [nextOf, if_pos hmem, hq]
        exact succIn_append pre rest i (hq ▸ hnd)
      have hrec := ih ⟨pre ++ [i], by rw [hq]; simp⟩ f (by simpa using Nat.le_of_succ_le_succ hle)
      show dgo (f + 1) w (some i) sip tip = _
      by_cases hm : sip ≠ (w.nodes i).addr ∧ tip ≠ (w.nodes i).addr
      · have : dgo (f + 1) w (some i) sip tip
            = dgo f w (nextOf w i) sip tip := by
          simp only [dgo, if_pos hm]
        rw [this, hnext, hrec]
        have hpi : (decide (sip = (w.nodes i).addr ∨ tip = (w.nodes i).addr)
            && (w.nodes i).cb) = false := by
          simp only [Bool.and_eq_false_iff, decide_eq_false_iff_not]
          left
          push_neg
          exact hm
        have hneg : ¬ ((decide (sip = (w.nodes i).addr
            ∨ tip = (w.nodes i).addr) && (w.nodes i).cb) = true) := by
          rw [hpi]
          simp
        simp only [List.filter_cons, if_neg hneg]
      · cases hcb : (w.nodes i).cb with
        | true =>
          have : dgo (f + 1) w (some i) sip tip
              = ((dgo f (runFrees w (w.nodes i).frees) (nextOf w i) sip tip).1,
                 i :: (dgo f (runFrees w (w.nodes i).frees)
                   (nextOf w i) sip tip).2) := by
            simp only [dgo, if_neg hm, hcb, if_pos]
          rw [this, hf i]
          show ((dgo f w (nextOf w i) sip tip).1,
              i :: (dgo f w (nextOf w i) sip tip).2) = _
          rw [hnext, hrec]
          have hpi : (decide (sip = (w.nodes i).addr ∨ tip = (w.nodes i).addr)
              && (w.nodes i).cb) = true := by
            rw [hcb, Bool.and_true, decide_eq_true_eq]
            by_contra hcon
            push_neg at hcon
            exact hm ⟨hcon.1, hcon.2⟩
          simp only [List.filter_cons, if_pos hpi]
        | false =>
          have : dgo (f + 1) w (some i) sip tip
              = dgo f w (nextOf w i) sip tip := by
            simp only [dgo, if_neg hm, hcb]
            rfl
          rw [this, hnext, hrec]
          have hpi : (decide (sip = (w.nodes i).addr ∨ tip = (w.nodes i).addr)
              && (w.nodes i).cb) = false := by
            rw [hcb, Bool.and_false]
          have hneg : ¬ ((decide (sip = (w.nodes i).addr
              ∨ tip = (w.nodes i).addr) && (w.nodes i).cb) = true) := by
            rw [hpi]
            simp
          simp only [List.filter_cons, if_neg hneg]

/-- Claim C6: The conflict dispatcher invokes the `conflicted` callbacks of
exactly the sessions whose address equals the message's sender IP or target
IP, in collection order: when no callback frees sessions, the invoked list
is literally the queue filtered by `(sip = addr ∨ tip = addr) ∧ cb`
(a session with no callback is skipped) and the world is unchanged;
matching ignores the opcode; and in the concrete two-session instance with
addresses A and B, a message with sender IP = A and target IP ∉ {A, B}
invokes only A's session. -/
theorem arp_dispatch_matches_exactly :
    (∀ (w : DWorld) (m : ArpMsg),
      (∀ i, (w.nodes i).frees = []) → w.queue.Nodup →
      arp_dispatch w m
        = (w, w.queue.filter (fun i =>
            decide (m.sip = (w.nodes i).addr ∨ m.tip = (w.nodes i).addr)
              && (w.nodes i).cb)))
    ∧ (∀ (w : DWorld) (m : ArpMsg) (op : Nat),
        arp_dispatch w { m with ar_op := op } = arp_dispatch w m)
    ∧ (arp_dispatch
        ⟨[1, 2],
         fun i => if i = 1 then ⟨[10, 0, 0, 1], true, []⟩
                  else ⟨[10, 0, 0, 2], true, []⟩,
         fun _ => none, fun _ => false⟩
        ⟨[170], [10, 0, 0, 1], [187], [10, 0, 0, 3], 1⟩).2 = [1] := by
  refine ⟨?_, ?_, ?_⟩
  · intro w m hf hnd
    have h := dgo_pure m.sip m.tip w hf hnd w.queue ⟨[], rfl⟩
      w.queue.length (le_refl _)
    simpa [arp_dispatch] using h
  · intro w m op
    rfl
  · rfl

/-- Witness for `arp_dispatch_matches_exactly`: the filter equation at a
concrete two-session world. -/
theorem arp_dispatch_matches_exactly_witness :
    arp_dispatch
        ⟨[1, 2],
         fun i => if i = 1 then ⟨[10, 0, 0, 1], true, []⟩
                  else ⟨[10, 0, 0, 2], true, []⟩,
         fun _ => none, fun _ => false⟩
        ⟨[170], [10, 0, 0, 1], [187], [10, 0, 0, 3], 1⟩
      = (⟨[1, 2],
          fun i => if i = 1 then ⟨[10, 0, 0, 1], true, []⟩
                   else ⟨[10, 0, 0, 2], true, []⟩,
          fun _ => none, fun _ => false⟩,
         [1, 2].filter (fun i =>
            decide ([10, 0, 0, 1]
                = ((fun i => if i = 1 then (⟨[10, 0, 0, 1], true, []⟩ : DNode)
                    else ⟨[10, 0, 0, 2], true, []⟩) i).addr
              ∨ [10, 0, 0, 3]
                = ((fun i => if i = 1 then (⟨[10, 0, 0, 1], true, []⟩ : DNode)
                    else ⟨[10, 0, 0, 2], true, []⟩) i).addr)
              && ((fun i => if i = 1 then (⟨[10, 0, 0, 1], true, []⟩ : DNode)
                    else ⟨[10, 0, 0, 2], true, []⟩) i).cb)) :=
  arp_dispatch_matches_exactly.1
    ⟨[1, 2],
     fun i => if i = 1 then ⟨[10, 0, 0, 1], true, []⟩
              else ⟨[10, 0, 0, 2], true, []⟩,
     fun _ => none, fun _ => false⟩
    ⟨[170], [10, 0, 0, 1], [187], [10, 0, 0, 3], 1⟩
    (fun i => by dsimp only; split <;> rfl)
    (by decide)

/-- Claim C9: An inbound frame whose decoded sender hardware address equals
the hardware address of a known local interface (with matching
hardware-address length — `sha` carries exactly `ar_hln` bytes) is
discarded silently: the dispatch loop is never entered, no session's
`conflicted` callback is invoked, and the world is unchanged. -/
theorem arp_packet_self_drop :
    ∀ (ifaces : List (List Nat)) (w : DWorld) (buf : List Nat)
      (arm : ArpMsg),
      arp_decodeMsg buf = some arm → arm.sha ∈ ifaces →
      arp_packet_run ifaces w buf = (w, []) := by
  intro ifaces w buf arm hdec hmem
  have hany : ifaces.any (fun hw => arm.sha == hw) = true :=
    List.any_eq_true.mpr ⟨arm.sha, hmem, by simp⟩
  simp [arp_packet_run, hdec, hany]

/-- Witness for `arp_packet_self_drop`: a 12-byte frame with
`ar_hln = ar_pln = 1`, sender hardware address `[170]` equal to the local
interface's, and sender IP `[7]` equal to a registered session's address —
still dropped with no invocation. -/
theorem arp_packet_self_drop_witness :
    arp_packet_run [[170]]
      ⟨[1], fun _ => ⟨[7], true, []⟩, fun _ => none, fun _ => false⟩
      [0, 1, 8, 0, 1, 1, 0, 1, 170, 7, 187, 9]
      = (⟨[1], fun _ => ⟨[7], true, []⟩, fun _ => none, fun _ => false⟩,
         []) :=
  arp_packet_self_drop [[170]]
    ⟨[1], fun _ => ⟨[7], true, []⟩, fun _ => none, fun _ => false⟩
    [0, 1, 8, 0, 1, 1, 0, 1, 170, 7, 187, 9]
    ⟨[170], [7], [187], [9], 1⟩ (by decide) (by decide)

/-! ### Safety of dispatch under mid-iteration `arp_free` (C4)

The proof tracks positions in the initial queue `L0`: the queue only
shrinks, every `next` step moves strictly forward in `L0`-order, and no
step can jump over a node that is still live, so every never-freed
matching node is visited exactly once. -/

theorem pairwise_indexOf (L0 : List Nat) (h : L0.Nodup) :
    L0.Pairwise (fun a b => L0.indexOf a < L0.indexOf b) := by
  rw [List.pairwise_iff_getElem]
  intro i j hi hj hij
  rw [List.indexOf_getElem h i hi, List.indexOf_getElem h j hj]
  exact hij

theorem succIn_spec (L0 q : List Nat) (hN : L0.Nodup) (hsub : List.Sublist q L0)
    (i : Nat) (hi : i ∈ q) :
    (∀ n, succIn q i = some n → n ∈ q ∧ L0.indexOf i < L0.indexOf n)
    ∧ (∀ j ∈ q, L0.indexOf i < L0.indexOf j →
        ∃ n, succIn q i = some n ∧ L0.indexOf n ≤ L0.indexOf j) := by
  have hq : q.Pairwise (fun a b => L0.indexOf a < L0.indexOf b) :=
    (pairwise_indexOf L0 hN).sublist hsub
  have hqn : q.Nodup := hsub.nodup hN
  obtain ⟨pre, rest, hdec⟩ := List.append_of_mem hi
  subst hdec
  have hsucc : succIn (pre ++ i :: rest) i = rest.head? :=
    succIn_append pre rest i hqn
  obtain ⟨hpre, hmid, hcross⟩ := List.pairwise_append.mp hq
  obtain ⟨hirest, hrest⟩ := List.pairwise_cons.mp hmid
  constructor
  · intro n hn
    rw [hsucc] at hn
    cases rest with
    | nil => simp at hn
    | cons r rest' =>
      rw [List.head?_cons, Option.some.injEq] at hn
      subst hn
      exact ⟨by simp, hirest r (by simp)⟩
  · intro j hj hij
    rcases List.mem_append.mp hj with hjp | hjc
    · have := hcross j hjp i (by simp)
      omega
    · rcases List.mem_cons.mp hjc with rfl | hjr
      · omega
      · cases rest with
        | nil => simp at hjr
        | cons r rest' =>
          refine ⟨r, by rw [hsucc]; rfl, ?_⟩
          rcases List.mem_cons.mp hjr with rfl | hjr'
          · exact le_refl _
          · exact le_of_lt ((List.pairwise_cons.mp hrest).1 j hjr')

/-- Invariant of the dispatch loop relative to the initial queue `L0`:
the queue is a subsequence of `L0`; a node of `L0` no longer in the queue
was freed; a freed node's retained `next` points strictly forward in
`L0`-order and never past any still-live node that lies beyond the freed
node. -/
structure DInv (L0 : List Nat) (w : DWorld) : Prop where
  nodup : L0.Nodup
  sub : List.Sublist w.queue L0
  liveNotFreed : ∀ i ∈ L0, i ∉ w.queue → w.freed i = true
  staleMem : ∀ d n, w.staleNext d = some n →
    n ∈ L0 ∧ L0.indexOf d < L0.indexOf n
  staleCover : ∀ d, w.freed d = true → ∀ j ∈ w.queue,
    L0.indexOf d < L0.indexOf j →
    ∃ n, w.staleNext d = some n ∧ L0.indexOf n ≤ L0.indexOf j

theorem dfree_nodes (w : DWorld) (i : Nat) : (dfree w i).nodes = w.nodes := by
  rw [dfree]
  split <;> rfl

theorem dfree_queue_sublist (w : DWorld) (i : Nat) :
    List.Sublist (dfree w i).queue w.queue := by
  rw [dfree]
  split
  · exact List.erase_sublist i w.queue
  · exact List.Sublist.refl _

theorem dfree_inv {L0 : List Nat} {w : DWorld} (hI : DInv L0 w) (i : Nat) :
    DInv L0 (dfree w i) := by
  by_cases hmem : i ∈ w.queue
  · have hdf : dfree w i =
        { queue := w.queue.erase i,
          nodes := w.nodes,
          staleNext := fun j =>
            if j = i then succIn w.queue i else w.staleNext j,
          freed := fun j => if j = i then true else w.freed j } := by
      rw [dfree, if_pos hmem]
    have hspec := succIn_spec L0 w.queue hI.nodup hI.sub i hmem
    rw [hdf]
    refine ⟨hI.nodup, (List.erase_sublist i w.queue).trans hI.sub, ?_, ?_, ?_⟩
    · intro j hjL hj
      dsimp only at hj ⊢
      by_cases hji : j = i
      · rw [if_pos hji]
      · rw [if_neg hji]
        refine hI.liveNotFreed j hjL ?_
        intro hjq
        exact hj ((List.mem_erase_of_ne hji).mpr hjq)
    · intro d n hdn
      dsimp only at hdn
      by_cases hdi : d = i
      · rw [if_pos hdi] at hdn
        obtain ⟨hnq, hlt⟩ := hspec.1 n hdn
        rw [hdi]
        exact ⟨hI.sub.subset hnq, hlt⟩
      · rw [if_neg hdi] at hdn
        exact hI.staleMem d n hdn
    · intro d hd j hj hij
      dsimp only at hd hj ⊢
      have hjq : j ∈ w.queue := List.mem_of_mem_erase hj
      by_cases hdi : d = i
      · rw [hdi] at hij
        obtain ⟨n, hn, hle⟩ := hspec.2 j hjq hij
        refine ⟨n, ?_, hle⟩
        rw [if_pos hdi]
        exact hn
      · rw [if_neg hdi] at hd
        obtain ⟨n, hn, hle⟩ := hI.staleCover d hd j hjq hij
        refine ⟨n, ?_, hle⟩
        rw [if_neg hdi]
        exact hn
  · rw [dfree, if_neg hmem]
    exact hI

theorem runFrees_nodes (l : List Nat) :
    ∀ w : DWorld, (runFrees w l).nodes = w.nodes := by
  induction l with
  | nil => intro w; rfl
  | cons i rest ih =>
    intro w
    rw [runFrees, ih, dfree_nodes]

theorem runFrees_queue_sublist (l : List Nat) :
    ∀ w : DWorld, List.Sublist (runFrees w l).queue w.queue := by
  induction l with
  | nil => intro w; exact List.Sublist.refl _
  | cons i rest ih =>
    intro w
    exact (ih (dfree w i)).trans (dfree_queue_sublist w i)

theorem runFrees_inv (L0 : List Nat) (l : List Nat) :
    ∀ {w : DWorld}, DInv L0 w → DInv L0 (runFrees w l) := by
  induction l with
  | nil => intro w hI; exact hI
  | cons i rest ih =>
    intro w hI
    exact ih (dfree_inv hI i)

/-- Main loop invariant proof: from cursor `cur`, every matching session
with a callback that is still live when the loop ends is invoked exactly
once if it lies at or beyond the cursor in initial-queue order, and not at
all if it lies strictly before the cursor. -/
theorem dgo_spec (L0 sip tip : List Nat) :
    ∀ (fuel : Nat) (w : DWorld) (cur : Option Nat),
      DInv L0 w →
      (∀ c, cur = some c → c ∈ L0 ∧ L0.length - L0.indexOf c ≤ fuel) →
      DInv L0 (dgo fuel w cur sip tip).1
      ∧ List.Sublist (dgo fuel w cur sip tip).1.queue w.queue
      ∧ (dgo fuel w cur sip tip).1.nodes = w.nodes
      ∧ (∀ j, j ∈ (dgo fuel w cur sip tip).1.queue →
          (sip = (w.nodes j).addr ∨ tip = (w.nodes j).addr) →
          (w.nodes j).cb = true →
          ((∃ c, cur = some c ∧ L0.indexOf c ≤ L0.indexOf j) →
            (dgo fuel w cur sip tip).2.count j = 1)
          ∧ ((cur = none
                ∨ ∃ c, cur = some c ∧ L0.indexOf j < L0.indexOf c) →
            (dgo fuel w cur sip tip).2.count j = 0)) := by
  intro fuel
  induction fuel with
  | zero =>
    intro w cur hI hcur
    cases cur with
    | none =>
      refine ⟨hI, List.Sublist.refl _, rfl, ?_⟩
      intro j hj hm hcb
      constructor
      · rintro ⟨c, hc, -⟩
        cases hc
      · intro _
        rfl
    | some c =>
      obtain ⟨hcL, hfuel⟩ := hcur c rfl
      exact absurd (List.indexOf_lt_length.mpr hcL) (by omega)
  | succ fuel ih =>
    intro w cur hI hcur
    cases cur with
    | none =>
      refine ⟨hI, List.Sublist.refl _, rfl, ?_⟩
      intro j hj hm hcb
      constructor
      · rintro ⟨c, hc, -⟩
        cases hc
      · intro _
        rfl
    | some i =>
      obtain ⟨hiL, hfuel⟩ := hcur i rfl
      have hposi : L0.indexOf i < L0.length := List.indexOf_lt_length.mpr hiL
      have hF1 : ∀ n, nextOf w i = some n →
          n ∈ L0 ∧ L0.indexOf i < L0.indexOf n := by
        by_cases hmem : i ∈ w.queue
        · intro n hn
          rw [nextOf, if_pos hmem] at hn
          obtain ⟨hnq, hlt⟩ :=
            (succIn_spec L0 w.queue hI.nodup hI.sub i hmem).1 n hn
          exact ⟨hI.sub.subset hnq, hlt⟩
        · intro n hn
          rw [nextOf, if_neg hmem] at hn
          exact hI.staleMem i n hn
      have hF2 : ∀ j ∈ w.queue, L0.indexOf i < L0.indexOf j →
          ∃ n, nextOf w i = some n ∧ L0.indexOf n ≤ L0.indexOf j := by
        by_cases hmem : i ∈ w.queue
        · intro j hj hij
          obtain ⟨n, hn, hle⟩ :=
            (succIn_spec L0 w.queue hI.nodup hI.sub i hmem).2 j hj hij
          exact ⟨n, by rw [nextOf, if_pos hmem]; exact hn, hle⟩
        · intro j hj hij
          have hfreed : w.freed i = true := hI.liveNotFreed i hiL hmem
          obtain ⟨n, hn, hle⟩ := hI.staleCover i hfreed j hj hij
          exact ⟨n, by rw [nextOf, if_neg hmem]; exact hn, hle⟩
      have hcur' : ∀ c, nextOf w i = some c →
          c ∈ L0 ∧ L0.length - L0.indexOf c ≤ fuel := by
        intro c hc
        obtain ⟨hcL, hlt⟩ := hF1 c hc
        exact ⟨hcL, by omega⟩
      by_cases hm : sip ≠ (w.nodes i).addr ∧ tip ≠ (w.nodes i).addr
      · -- no match at i: plain skip
        have heq : dgo (fuel + 1) w (some i) sip tip
            = dgo fuel w (nextOf w i) sip tip := by
          simp only [dgo, if_pos hm]
        obtain ⟨hInv', hsub', hnodes', hcount'⟩ := ih w (nextOf w i) hI hcur'
        rw [heq]
        refine ⟨hInv', hsub', hnodes', ?_⟩
        intro j hj hmj hcbj
        have hji : j ≠ i := by
          rintro rfl
          rcases hmj with h | h
          · exact hm.1 h
          · exact hm.2 h
        have hjq : j ∈ w.queue := hsub'.subset hj
        have hjL : j ∈ L0 := hI.sub.subset hjq
        constructor
        · rintro ⟨c, hc, hle⟩
          obtain rfl := Option.some.inj hc
          have hij : L0.indexOf i < L0.indexOf j := by
            rcases Nat.lt_or_ge (L0.indexOf i) (L0.indexOf j) with h | h
            · exact h
            · have : L0.indexOf i = L0.indexOf j := by omega
              exact absurd ((List.indexOf_inj hiL hjL).mp this).symm hji
          obtain ⟨n, hn, hnle⟩ := hF2 j hjq hij
          exact (hcount' j hj hmj hcbj).1 ⟨n, hn, hnle⟩
        · rintro (h | ⟨c, hc, hlt⟩)
          · cases h
          obtain rfl := Option.some.inj hc
          refine (hcount' j hj hmj hcbj).2 ?_
          rcases hn : nextOf w i with - | n
          · exact Or.inl rfl
          · exact Or.inr ⟨n, rfl, by have := (hF1 n hn).2; omega⟩
      · cases hcb : (w.nodes i).cb with
        | false =>
          -- match but no callback: skip without invoking
          have heq : dgo (fuel + 1) w (some i) sip tip
              = dgo fuel w (nextOf w i) sip tip := by
            simp only [dgo, if_neg hm, hcb]
            rfl
          obtain ⟨hInv', hsub', hnodes', hcount'⟩ := ih w (nextOf w i) hI hcur'
          rw [heq]
          refine ⟨hInv', hsub', hnodes', ?_⟩
          intro j hj hmj hcbj
          have hji : j ≠ i := by
            rintro rfl
            rw [hcb] at hcbj
            cases hcbj
          have hjq : j ∈ w.queue := hsub'.subset hj
          have hjL : j ∈ L0 := hI.sub.subset hjq
          constructor
          · rintro ⟨c, hc, hle⟩
            obtain rfl := Option.some.inj hc
            have hij : L0.indexOf i < L0.indexOf j := by
              rcases Nat.lt_or_ge (L0.indexOf i) (L0.indexOf j) with h | h
              · exact h
              · have : L0.indexOf i = L0.indexOf j := by omega
                exact absurd ((List.indexOf_inj hiL hjL).mp this).symm hji
            obtain ⟨n, hn, hnle⟩ := hF2 j hjq hij
            exact (hcount' j hj hmj hcbj).1 ⟨n, hn, hnle⟩
          · rintro (h | ⟨c, hc, hlt⟩)
            · cases h
            obtain rfl := Option.some.inj hc
            refine (hcount' j hj hmj hcbj).2 ?_
            rcases hn : nextOf w i with - | n
            · exact Or.inl rfl
            · exact Or.inr ⟨n, rfl, by have := (hF1 n hn).2; omega⟩
        | true =>
          -- invoke i's callback, which frees sessions, then continue
          have heq : dgo (fuel + 1) w (some i) sip tip
              = ((dgo fuel (runFrees w (w.nodes i).frees)
                    (nextOf w i) sip tip).1,
                 i :: (dgo fuel (runFrees w (w.nodes i).frees)
                    (nextOf w i) sip tip).2) := by
            simp only [dgo, if_neg hm, hcb, if_pos]
          have hI2 : DInv L0 (runFrees w (w.nodes i).frees) :=
            runFrees_inv L0 (w.nodes i).frees hI
          obtain ⟨hInv', hsub', hnodes', hcount'⟩ :=
            ih (runFrees w (w.nodes i).frees) (nextOf w i) hI2 hcur'
          rw [heq]
          have hnodes2 : (runFrees w (w.nodes i).frees).nodes = w.nodes :=
            runFrees_nodes (w.nodes i).frees w
          have hsub2 : List.Sublist (runFrees w (w.nodes i).frees).queue
              w.queue := runFrees_queue_sublist (w.nodes i).frees w
          refine ⟨hInv', hsub'.trans hsub2, hnodes'.trans hnodes2, ?_⟩
          intro j hj hmj hcbj
          have hmj2 : sip = ((runFrees w (w.nodes i).frees).nodes j).addr
              ∨ tip = ((runFrees w (w.nodes i).frees).nodes j).addr := by
            rw [hnodes2]
            exact hmj
          have hcbj2 : ((runFrees w (w.nodes i).frees).nodes j).cb = true := by
            rw [hnodes2]
            exact hcbj
          have hjq2 : j ∈ (runFrees w (w.nodes i).frees).queue :=
            hsub'.subset hj
          have hjq : j ∈ w.queue := hsub2.subset hjq2
          have hjL : j ∈ L0 := hI.sub.subset hjq
          by_cases hji : j = i
          · subst hji
            constructor
            · rintro ⟨c, hc, hle⟩
              have hz : (dgo fuel (runFrees w (w.nodes j).frees)
                  (nextOf w j) sip tip).2.count j = 0 := by
                refine (hcount' j hj hmj2 hcbj2).2 ?_
                rcases hn : nextOf w j with - | n
                · exact Or.inl rfl
                · exact Or.inr ⟨n, rfl, (hF1 n hn).2⟩
              simp [hz]
            · rintro (h | ⟨c, hc, hlt⟩)
              · cases h
              obtain rfl := Option.some.inj hc
              omega
          · constructor
            · rintro ⟨c, hc, hle⟩
              obtain rfl := Option.some.inj hc
              have hij : L0.indexOf i < L0.indexOf j := by
                rcases Nat.lt_or_ge (L0.indexOf i) (L0.indexOf j) with h | h
                · exact h
                · have : L0.indexOf i = L0.indexOf j := by omega
                  exact absurd ((List.indexOf_inj hiL hjL).mp this).symm hji
              obtain ⟨n, hn, hnle⟩ := hF2 j hjq hij
              have h1 := (hcount' j hj hmj2 hcbj2).1 ⟨n, hn, hnle⟩
              rw [List.count_cons_of_ne (by simpa using hji)]
              exact h1
            · rintro (h | ⟨c, hc, hlt⟩)
              · cases h
              obtain rfl := Option.some.inj hc
              have h0 : (dgo fuel (runFrees w (w.nodes i).frees)
                  (nextOf w i) sip tip).2.count j = 0 := by
                refine (hcount' j hj hmj2 hcbj2).2 ?_
                rcases hn : nextOf w i with - | n
                · exact Or.inl rfl
                · exact Or.inr ⟨n, rfl, by have := (hF1 n hn).2; omega⟩
              rw [List.count_cons_of_ne (by simpa using hji)]
              exact h0

/-- Claim C4: Dispatching a decoded message over an interface's collection
tolerates conflicted callbacks freeing their own or any other session
mid-iteration: every matching session (with a callback) that remains in
the collection when dispatch ends has been invoked exactly once — no
remaining match is skipped, none is invoked twice. -/
theorem arp_dispatch_safe_under_free :
    ∀ (w : DWorld) (m : ArpMsg),
      w.queue.Nodup →
      (∀ d, w.freed d = false) →
      (∀ d, w.staleNext d = none) →
      ∀ j, j ∈ (arp_dispatch w m).1.queue →
        (m.sip = (w.nodes j).addr ∨ m.tip = (w.nodes j).addr) →
        (w.nodes j).cb = true →
        (arp_dispatch w m).2.count j = 1 := by
  intro w m hnd hfr hst j hj hm hcb
  have hI : DInv w.queue w :=
    { nodup := hnd
      sub := List.Sublist.refl _
      liveNotFreed := fun i hiL hi => absurd hiL hi
      staleMem := fun d n hdn => by rw [hst d] at hdn; cases hdn
      staleCover := fun d hd => by rw [hfr d] at hd; cases hd }
  have hcur : ∀ c, w.queue.head? = some c →
      c ∈ w.queue ∧ w.queue.length - w.queue.indexOf c ≤ w.queue.length := by
    intro c hc
    refine ⟨?_, by omega⟩
    cases hQ : w.queue with
    | nil => rw [hQ] at hc; cases hc
    | cons a t =>
      rw [hQ, List.head?_cons, Option.some.injEq] at hc
      rw [← hc]
      exact List.mem_cons_self a t
  have hspec := dgo_spec w.queue m.sip m.tip w.queue.length w
    w.queue.head? hI hcur
  have hj' : j ∈ (dgo w.queue.length w w.queue.head? m.sip m.tip).1.queue :=
    hj
  have hjq : j ∈ w.queue := hspec.2.1.subset hj'
  obtain ⟨hd, tl, hQ⟩ : ∃ hd tl, w.queue = hd :: tl := by
    cases hQ : w.queue with
    | nil => rw [hQ] at hjq; cases hjq
    | cons a t => exact ⟨a, t, rfl⟩
  have hhead : w.queue.head? = some hd := by rw [hQ]; rfl
  have hle : w.queue.indexOf hd ≤ w.queue.indexOf j := by
    rw [hQ]
    simp [List.indexOf_cons_self]
  exact (hspec.2.2.2 j hj' hm hcb).1 ⟨hd, hhead, hle⟩

/-- Witness for `arp_dispatch_safe_under_free`: session 1's callback frees
session 2 — the iterator's saved next — and the remaining matching session
3 is still invoked exactly once. -/
theorem arp_dispatch_safe_under_free_witness :
    (arp_dispatch
      ⟨[1, 2, 3],
       fun i => if i = 1 then ⟨[9], true, [2]⟩
                else if i = 2 then ⟨[9], true, []⟩
                else ⟨[9], true, []⟩,
       fun _ => none, fun _ => false⟩
      ⟨[170], [9], [187], [8], 1⟩).2.count 3 = 1 :=
  arp_dispatch_safe_under_free
    ⟨[1, 2, 3],
     fun i => if i = 1 then ⟨[9], true, [2]⟩
              else if i = 2 then ⟨[9], true, []⟩
              else ⟨[9], true, []⟩,
     fun _ => none, fun _ => false⟩
    ⟨[170], [9], [187], [8], 1⟩
    (by decide) (fun _ => rfl) (fun _ => rfl) 3
    (by decide) (by decide) (by decide)

end ArpC
